import Mathlib

/-!
Shallow embedding of the edau audio library (looper, speed shifter, sample
codec, interpolators) and proofs about the claims of its specification.

Go float64 values are modelled as exact rationals; Go int16/int64 values as
integers with explicit wrapping where the code relies on two's complement.
-/

namespace Edau

/-! ### Sample codec (utils_samples.go) -/

/-- Two's-complement reinterpretation of an unsigned 16-bit value as a
signed 16-bit value: models Go's `int16` wrapping. -/
def toInt16 (u : ℤ) : ℤ := ((u + 32768) % 65536) - 32768

/-- `StoreL16Sample`: stores (left, right) as 4 little-endian bytes.
`byte(left)` is the low byte of the two's complement representation and
`byte(left >> 8)` the high byte. Bytes are modelled as naturals below 256. -/
def StoreL16Sample (left right : ℤ) : List ℕ :=
  let ul : ℕ := (left % 65536).toNat
  let ur : ℕ := (right % 65536).toNat
  [ul % 256, ul / 256, ur % 256, ur / 256]

/-- `GetSampleAsI16`: reads the first 4 bytes as two little-endian int16
values: `(int16(buffer[1]) << 8) | int16(buffer[0])` wraps in two's
complement, which equals `toInt16 (b1*256 + b0)`. -/
def GetSampleAsI16 (buffer : List ℕ) : ℤ × ℤ :=
  (toInt16 ((buffer.getD 1 0) * 256 + (buffer.getD 0 0)),
   toInt16 ((buffer.getD 3 0) * 256 + (buffer.getD 2 0)))

/-- Truncation toward zero of a rational, as Go's float-to-int conversion. -/
def truncF64 (q : ℚ) : ℤ := if q < 0 then -(Int.floor (-q)) else Int.floor q

/-- `clipFloatToI16`: clip a raw float to the int16 range, truncating
toward zero inside the range. -/
def clipFloatToI16 (value : ℚ) : ℤ :=
  if value ≥ 32767 then 32767
  else if value ≤ -32768 then -32768
  else truncF64 value

/-- `normFloatToI16`: encode a normalized float, scaling by 32767 for
non-negative values and 32768 for negative ones, clipping at the ends. -/
def normFloatToI16 (value : ℚ) : ℤ :=
  if value ≥ 0 then
    if value ≥ 1 then 32767 else truncF64 (value * 32767)
  else
    if value ≤ -1 then -32768 else truncF64 (value * 32768)

/-- `NormalizeF64`: normalize a value from [-32768, 32767] to [-1, 1]. -/
def NormalizeF64 (value : ℚ) : ℚ :=
  if value ≥ 0 then
    if value ≥ 32767 then 1 else value / 32767
  else
    if value ≤ -32768 then -1 else value / 32768

/-- `GetSampleAsF64`: decode 4 bytes into two normalized values. -/
def GetSampleAsF64 (buffer : List ℕ) : ℚ × ℚ :=
  let p := GetSampleAsI16 buffer
  (NormalizeF64 (p.1 : ℚ), NormalizeF64 (p.2 : ℚ))

/-- `StoreF64SampleAsL16`: store raw float values, clipping to int16. -/
def StoreF64SampleAsL16 (left right : ℚ) : List ℕ :=
  StoreL16Sample (clipFloatToI16 left) (clipFloatToI16 right)

/-! ### Interpolators (interpolation.go) -/

/-- `InterpLagrangeN`: general Lagrange interpolation. For each indexed
sample the Lagrange basis polynomial is built by folding over all indices,
skipping the sample's own index, exactly as the Go loop does. -/
def InterpLagrangeN (samples : List ℚ) (targetPosition : ℚ) : ℚ :=
  (samples.enum.map (fun js =>
    js.2 * ((List.range samples.length).foldl
      (fun (l : ℚ) (m : ℕ) => if js.1 = m then l
        else l * ((targetPosition - (m : ℚ)) / ((js.1 : ℚ) - (m : ℚ)))) 1))).sum

/-- `InterpLagrange4Pt3Ord`: 4-point, 3rd-order Lagrange, Horner form. -/
def InterpLagrange4Pt3Ord (samples : List ℚ) (x : ℚ) : ℚ :=
  let c0 := samples.getD 1 0
  let c1 := samples.getD 2 0 - 1/3 * samples.getD 0 0 - 1/2 * samples.getD 1 0
    - 1/6 * samples.getD 3 0
  let c2 := 1/2 * (samples.getD 0 0 + samples.getD 2 0) - samples.getD 1 0
  let c3 := 1/6 * (samples.getD 3 0 - samples.getD 0 0)
    + 1/2 * (samples.getD 1 0 - samples.getD 2 0)
  let x1 := x - 1
  ((c3 * x1 + c2) * x1 + c1) * x1 + c0

/-- `InterpLagrange6Pt5Ord`: 6-point, 5th-order Lagrange, Horner form. -/
def InterpLagrange6Pt5Ord (samples : List ℚ) (x : ℚ) : ℚ :=
  let sam_1_3_pre := samples.getD 1 0 + samples.getD 3 0
  let sam_0_4_pre := 1/24 * (samples.getD 0 0 + samples.getD 4 0)
  let c0 := samples.getD 2 0
  let c1 := 1/20 * samples.getD 0 0 - 1/2 * samples.getD 1 0 - 1/3 * samples.getD 2 0
    + samples.getD 3 0 - 1/4 * samples.getD 4 0 + 1/30 * samples.getD 5 0
  let c2 := 2/3 * sam_1_3_pre - 5/4 * samples.getD 2 0 - sam_0_4_pre
  let c3 := 5/12 * samples.getD 2 0 - 7/12 * samples.getD 3 0 + 7/24 * samples.getD 4 0
    - 1/24 * (samples.getD 0 0 + samples.getD 1 0 + samples.getD 5 0)
  let c4 := 1/4 * samples.getD 2 0 - 1/6 * sam_1_3_pre + sam_0_4_pre
  let c5 := 1/120 * (samples.getD 5 0 - samples.getD 0 0)
    + 1/24 * (samples.getD 1 0 - samples.getD 4 0)
    + 1/12 * (samples.getD 3 0 - samples.getD 2 0)
  let x2 := x - 2
  ((((c5 * x2 + c4) * x2 + c3) * x2 + c2) * x2 + c1) * x2 + c0

/-- `InterpHermite4Pt3Ord`: 4-point, 3rd-order Hermite, Horner form. -/
def InterpHermite4Pt3Ord (samples : List ℚ) (x : ℚ) : ℚ :=
  let c0 := samples.getD 1 0
  let c1 := 1/2 * (samples.getD 2 0 - samples.getD 0 0)
  let c2 := samples.getD 0 0 - 5/2 * samples.getD 1 0 + 2 * samples.getD 2 0
    - 1/2 * samples.getD 3 0
  let c3 := 1/2 * (samples.getD 3 0 - samples.getD 0 0)
    + 3/2 * (samples.getD 1 0 - samples.getD 2 0)
  let x1 := x - 1
  ((c3 * x1 + c2) * x1 + c1) * x1 + c0

/-- `InterpHermite6Pt3Ord`: 6-point, 3rd-order Hermite, Horner form. -/
def InterpHermite6Pt3Ord (samples : List ℚ) (x : ℚ) : ℚ :=
  let c0 := samples.getD 2 0
  let c1 := 1/12 * (samples.getD 0 0 - samples.getD 4 0)
    + 2/3 * (samples.getD 3 0 - samples.getD 1 0)
  let c2 := 5/4 * samples.getD 1 0 - 7/3 * samples.getD 2 0 + 5/3 * samples.getD 3 0
    - 1/2 * samples.getD 4 0 + 1/12 * samples.getD 5 0 - 1/6 * samples.getD 0 0
  let c3 := 1/12 * (samples.getD 0 0 - samples.getD 5 0)
    + 7/12 * (samples.getD 4 0 - samples.getD 1 0)
    + 4/3 * (samples.getD 2 0 - samples.getD 3 0)
  let x2 := x - 2
  ((c3 * x2 + c2) * x2 + c1) * x2 + c0

/-- Folding multiplication over a list equals the accumulator times the
product of the mapped list. -/
lemma foldl_mul_eq_prod (g : ℕ → ℚ) (L : List ℕ) (acc : ℚ) :
    L.foldl (fun l m => l * g m) acc = acc * (L.map g).prod := by
  induction L generalizing acc with
  | nil => simp
  | cons m t ih => simp [ih, mul_assoc]

/-- The Lagrange basis fold equals a product over the index range. -/
lemma lag_basis_eq_prod (j : ℕ) (x : ℚ) (n : ℕ) :
    (List.range n).foldl
      (fun (l : ℚ) (m : ℕ) => if j = m then l
        else l * ((x - (m : ℚ)) / ((j : ℚ) - (m : ℚ)))) 1
    = ((List.range n).map
        (fun m => if j = m then 1 else (x - (m : ℚ)) / ((j : ℚ) - (m : ℚ)))).prod := by
  have hstep :
      (fun (l : ℚ) (m : ℕ) => if j = m then l
        else l * ((x - (m : ℚ)) / ((j : ℚ) - (m : ℚ))))
      = fun (l : ℚ) (m : ℕ) =>
          l * (if j = m then 1 else (x - (m : ℚ)) / ((j : ℚ) - (m : ℚ))) := by
    funext l m
    by_cases h : j = m <;> simp [h]
  rw [hstep, foldl_mul_eq_prod, one_mul]

/-- At its own node, every Lagrange basis factor is 1. -/
lemma lag_basis_diag (j : ℕ) (n : ℕ) :
    ((List.range n).map
      (fun m => if j = m then 1 else ((j : ℚ) - (m : ℚ)) / ((j : ℚ) - (m : ℚ)))).prod = 1 := by
  apply List.prod_eq_one
  intro y hy
  rcases List.mem_map.mp hy with ⟨m, _, rfl⟩
  by_cases h : j = m
  · simp [h]
  · have hne : (j : ℚ) - (m : ℚ) ≠ 0 := by
      intro hc
      apply h
      have hq : (j : ℚ) = (m : ℚ) := by linarith
      exact_mod_cast hq
    simp [h, div_self hne]

/-- At another node, some Lagrange basis factor vanishes. -/
lemma lag_basis_off (i j : ℕ) (n : ℕ) (hij : i ≠ j) (hj : j < n) :
    ((List.range n).map
      (fun m => if i = m then 1 else ((j : ℚ) - (m : ℚ)) / ((i : ℚ) - (m : ℚ)))).prod = 0 := by
  apply List.prod_eq_zero
  apply List.mem_map.mpr
  refine ⟨j, List.mem_range.mpr hj, ?_⟩
  rw [if_neg hij]
  simp

/-- A sum over an enumerated list rewritten as a sum over index range. -/
lemma enumFrom_map_sum (f : ℕ → ℚ → ℚ) (L : List ℚ) (k : ℕ) :
    ((L.enumFrom k).map (fun p => f p.1 p.2)).sum
    = ((List.range L.length).map (fun i => f (k + i) (L.getD i 0))).sum := by
  induction L generalizing k with
  | nil => simp
  | cons a t ih =>
    simp only [List.enumFrom, List.map_cons, List.sum_cons, List.length_cons,
      List.range_succ_eq_map, List.map_map]
    rw [ih (k + 1)]
    have hfun : ((fun i => f (k + i) ((a :: t).getD i 0)) ∘ Nat.succ)
        = (fun i => f (k + 1 + i) (t.getD i 0)) := by
      funext i
      simp only [Function.comp_apply]
      show f (k + (i + 1)) ((a :: t).getD (i + 1) 0) = f (k + 1 + i) (t.getD i 0)
      have h1 : k + (i + 1) = k + 1 + i := by omega
      rw [h1]
      simp [List.getD_cons_succ]
    rw [hfun]
    simp

/-- Summing a function over an index range when it vanishes off one index. -/
lemma delta_sum (ψ : ℕ → ℚ) (j n : ℕ) (hj : j < n)
    (h0 : ∀ i, i ≠ j → ψ i = 0) :
    ((List.range n).map ψ).sum = ψ j := by
  induction n with
  | zero => omega
  | succ n ih =>
    rw [List.range_succ, List.map_append, List.sum_append]
    by_cases h : j = n
    · subst h
      have hz : ((List.range j).map ψ).sum = 0 := by
        apply List.sum_eq_zero
        intro y hy
        rcases List.mem_map.mp hy with ⟨i, hi, rfl⟩
        have hilt := List.mem_range.mp hi
        exact h0 i (by omega)
      simp [hz]
    · have hjn : j < n := by omega
      rw [ih hjn]
      have hn : ψ n = 0 := h0 n (by omega)
      simp [hn]

/-- General Lagrange interpolation reproduces the sample values at every
integer node. -/
lemma lagrangeN_exact (samples : List ℚ) (j : ℕ) (h : j < samples.length) :
    InterpLagrangeN samples (j : ℚ) = samples.get ⟨j, h⟩ := by
  unfold InterpLagrangeN
  rw [show samples.enum = samples.enumFrom 0 from rfl]
  rw [enumFrom_map_sum (fun i s => s * ((List.range samples.length).foldl
      (fun (l : ℚ) (m : ℕ) => if i = m then l
        else l * (((j : ℚ) - (m : ℚ)) / ((i : ℚ) - (m : ℚ)))) 1)) samples 0]
  simp only [Nat.zero_add]
  rw [delta_sum (fun i => samples.getD i 0 * ((List.range samples.length).foldl
      (fun (l : ℚ) (m : ℕ) => if i = m then l
        else l * (((j : ℚ) - (m : ℚ)) / ((i : ℚ) - (m : ℚ)))) 1)) j samples.length h]
  · rw [lag_basis_eq_prod, lag_basis_diag]
    rw [List.getD_eq_getElem _ _ h]
    simp [List.get_eq_getElem]
  · intro i hij
    rw [lag_basis_eq_prod, lag_basis_off i j samples.length hij h]
    simp

/-! ### Byte streams (modelled as Go bytes.Reader over in-memory data) -/

/-- Errors and defensive failures surfaced by the embedded operations. -/
inductive Err where
  | eof
  | negSeek
  | fuelOut
  | panicked
  deriving DecidableEq, Repr

/-- An in-memory byte stream with read cursor, as Go's `bytes.Reader`:
`src i` is the byte at index `i` (only indices below `len` are ever read). -/
structure MemStream where
  src : ℕ → ℕ
  len : ℕ
  pos : ℕ

/-- `bytes.Reader.Read`: returns EOF when the cursor is at or past the end,
otherwise copies up to `want` available bytes and advances the cursor. -/
def memRead (s : MemStream) (want : ℕ) : List ℕ × MemStream × Option Err :=
  if s.len ≤ s.pos then ([], s, some Err.eof)
  else
    let avail := s.len - s.pos
    let n := if want ≤ avail then want else avail
    ((List.range n).map (fun i => s.src (s.pos + i)), { s with pos := s.pos + n }, none)

/-- Seek origins, as Go's io.SeekStart / io.SeekCurrent / io.SeekEnd. -/
inductive Whence where
  | seekStart
  | seekCurrent
  | seekEnd
  deriving DecidableEq, Repr

/-- `bytes.Reader.Seek`: computes the absolute offset, rejects negative
positions, otherwise moves the cursor (possibly past the end). -/
def memSeek (s : MemStream) (offset : ℤ) (whence : Whence) : ℤ × MemStream × Option Err :=
  let abs : ℤ :=
    match whence with
    | Whence.seekStart => offset
    | Whence.seekCurrent => (s.pos : ℤ) + offset
    | Whence.seekEnd => (s.len : ℤ) + offset
  if abs < 0 then (0, s, some Err.negSeek)
  else (abs, { s with pos := abs.toNat }, none)

/-! ### Looper (looper.go) -/

structure Looper where
  stream : MemStream
  position : ℤ
  loopStart : ℤ
  loopEnd : ℤ
  activeLoopEnd : ℤ

/-- The retry loop inside `Looper.readAll`: keep reading from the stream
until the requested amount is read in total or an error occurs. -/
def readAllAux (fuel : ℕ) (s : MemStream) (want : ℕ) : List ℕ × MemStream × Option Err :=
  match fuel with
  | 0 => ([], s, some Err.fuelOut)
  | fuel + 1 =>
    match memRead s want with
    | (bs, s2, e) =>
      if bs.length = want ∨ e ≠ none then (bs, s2, e)
      else
        match readAllAux fuel s2 (want - bs.length) with
        | (bs2, s3, e2) => (bs ++ bs2, s3, e2)

/-- `Looper.readAll`: reads fully into a `want`-byte buffer and advances
`position` by the number of bytes actually read. -/
def Looper.readAll (lp : Looper) (want : ℕ) : List ℕ × Looper × Option Err :=
  match readAllAux (want + 1) lp.stream want with
  | (bs, s2, e) =>
    (bs, { lp with stream := s2, position := lp.position + bs.length }, e)

/-- `Looper.Read`: serves a `want`-byte request, crossing the active loop
end as many times as needed; at each crossing the stream is repositioned to
`loopStart` and `activeLoopEnd` is reloaded from `loopEnd`. -/
def Looper.Read (fuel : ℕ) (lp : Looper) (want : ℕ) : List ℕ × Looper × Option Err :=
  match fuel with
  | 0 => ([], lp, some Err.fuelOut)
  | fuel + 1 =>
    if want = 0 then ([], lp, none)
    else
      let u0 : ℤ := lp.activeLoopEnd - lp.position
      let untilNext : ℤ := if u0 < 0 then 0 else u0
      if (want : ℤ) ≤ untilNext then lp.readAll want
      else
        match (if 0 < untilNext then lp.readAll untilNext.toNat
               else ([], lp, none)) with
        | (bs1, lp1, e1) =>
          if e1 ≠ none then (bs1, lp1, e1)
          else
            let lp2 := { lp1 with activeLoopEnd := lp1.loopEnd }
            match memSeek lp2.stream lp2.loopStart Whence.seekStart with
            | (p, s2, e2) =>
              let lp3 := { lp2 with stream := s2, position := p }
              if e2 ≠ none then (bs1, lp3, e2)
              else
                match Looper.Read fuel lp3 (want - untilNext.toNat) with
                | (bs2, lp4, e3) => (bs1 ++ bs2, lp4, e3)

/-- `Looper.AdjustLoop` with `assertLoopValuesValidity`: `none` models the
panic on invalid loop points; otherwise the loop points are replaced and
`activeLoopEnd` is updated only when the new end has not been passed. -/
def Looper.AdjustLoop (lp : Looper) (loopStart loopEnd : ℤ) : Option Looper :=
  if loopStart % 4 ≠ 0 then none
  else if loopEnd % 4 ≠ 0 then none
  else if loopEnd ≤ loopStart then none
  else if loopStart < 0 then none
  else some { lp with
    loopStart := loopStart
    loopEnd := loopEnd
    activeLoopEnd := if lp.position ≤ loopEnd then loopEnd else lp.activeLoopEnd }

/-! ### Circular interpolation window (speed_shifter.go) -/


def listCopy (dst src : List ℚ) : List ℚ :=
  let n := min src.length dst.length
  src.take n ++ dst.drop n

structure circularWindow where
  winSize : ℕ
  buffer : List ℚ
  startIndex : ℕ
  endIndex : ℕ

def circularWindow.Reset (c : circularWindow) : circularWindow :=
  { c with startIndex := 0, endIndex := 0 }

def circularWindow.Get (c : circularWindow) : List ℚ :=
  (c.buffer.drop c.startIndex).take (c.endIndex - c.startIndex)

def circularWindow.Push (c : circularWindow) (value : ℚ) : circularWindow :=
  if c.endIndex < c.buffer.length then
    let buf := c.buffer.set c.endIndex value
    if c.winSize = c.endIndex - c.startIndex then
      { c with buffer := buf, startIndex := c.startIndex + 1, endIndex := c.endIndex + 1 }
    else
      { c with buffer := buf, endIndex := c.endIndex + 1 }
  else
    if c.winSize = c.endIndex - c.startIndex then
      let src := (c.buffer.drop (c.startIndex + 1)).take (c.endIndex - (c.startIndex + 1))
      let buf := (listCopy c.buffer src).set (c.winSize - 1) value
      { c with buffer := buf, startIndex := 0, endIndex := c.winSize }
    else
      let src := (c.buffer.drop c.startIndex).take (c.endIndex - c.startIndex)
      let newIndex := c.endIndex - c.startIndex
      let buf := (listCopy c.buffer src).set newIndex value
      { c with buffer := buf, startIndex := 0, endIndex := newIndex + 1 }

lemma listCopy_length (dst src : List ℚ) : (listCopy dst src).length = dst.length := by
  unfold listCopy
  simp only [List.length_append, List.length_take, List.length_drop]
  omega

lemma winE1 (buf : List ℚ) (st en : ℕ) (v : ℚ) (h1 : st ≤ en) (h2 : en < buf.length) :
    ((buf.set en v).drop st).take (en + 1 - st)
      = (buf.drop st).take (en - st) ++ [v] := by
  apply List.ext_getElem
  · simp only [List.length_take, List.length_drop, List.length_set, List.length_append,
      List.length_cons, List.length_nil]
    omega
  · intro n h1' h2'
    simp only [List.length_take, List.length_drop, List.length_set, inf_le_iff] at h1'
    rw [List.getElem_take, List.getElem_drop, List.getElem_set]
    rw [List.getElem_append]
    by_cases hn : n < en - st
    · rw [dif_pos (by simp only [List.length_take, List.length_drop]; omega)]
      rw [if_neg (by omega)]
      rw [List.getElem_take, List.getElem_drop]
    · have hn2 : n = en - st := by omega
      rw [dif_neg (by simp only [List.length_take, List.length_drop]; omega)]
      rw [if_pos (by omega)]
      simp

lemma winE2 (buf : List ℚ) (st en : ℕ) (v : ℚ) (h1 : st < en) (h2 : en < buf.length) :
    ((buf.set en v).drop (st + 1)).take (en - st)
      = ((buf.drop st).take (en - st)).drop 1 ++ [v] := by
  apply List.ext_getElem
  · simp only [List.length_take, List.length_drop, List.length_set, List.length_append,
      List.length_cons, List.length_nil]
    omega
  · intro n h1' h2'
    simp only [List.length_take, List.length_drop, List.length_set, inf_le_iff] at h1'
    rw [List.getElem_take, List.getElem_drop, List.getElem_set]
    rw [List.getElem_append]
    by_cases hn : n < en - st - 1
    · rw [dif_pos (by simp only [List.length_take, List.length_drop]; omega)]
      rw [if_neg (by omega)]
      rw [List.getElem_drop, List.getElem_take, List.getElem_drop]
      congr 1
      omega
    · have hn2 : n = en - st - 1 := by omega
      rw [dif_neg (by simp only [List.length_take, List.length_drop]; omega)]
      rw [if_pos (by omega)]
      simp

lemma winE3 (buf : List ℚ) (st en : ℕ) (v : ℚ) (h1 : st < en) (h2 : en = buf.length) :
    ((listCopy buf ((buf.drop (st + 1)).take (en - (st + 1)))).set (en - st - 1) v).take (en - st)
      = ((buf.drop st).take (en - st)).drop 1 ++ [v] := by
  unfold listCopy
  apply List.ext_getElem
  · simp only [List.length_take, List.length_drop, List.length_set, List.length_append,
      List.length_cons, List.length_nil]
    omega
  · intro n h1' h2'
    simp only [List.length_take, List.length_drop, List.length_set, List.length_append,
      inf_le_iff] at h1'
    rw [List.getElem_take, List.getElem_set]
    by_cases hn : n < en - st - 1
    · rw [if_neg (by omega)]
      rw [List.getElem_append]
      rw [dif_pos (by simp only [List.length_take, List.length_drop]; omega)]
      rw [List.getElem_take, List.getElem_take, List.getElem_drop]
      rw [List.getElem_append]
      rw [dif_pos (by simp only [List.length_take, List.length_drop]; omega)]
      rw [List.getElem_drop, List.getElem_take, List.getElem_drop]
      congr 1
      omega
    · rw [if_pos (by omega)]
      rw [List.getElem_append]
      rw [dif_neg (by simp only [List.length_take, List.length_drop,
        List.length_append, List.length_cons, List.length_nil]; omega)]
      simp

lemma winE4 (buf : List ℚ) (st en : ℕ) (v : ℚ) (h0 : st ≤ en) (h1 : en - st < en)
    (h2 : en = buf.length) :
    ((listCopy buf ((buf.drop st).take (en - st))).set (en - st) v).take (en - st + 1)
      = (buf.drop st).take (en - st) ++ [v] := by
  unfold listCopy
  apply List.ext_getElem
  · simp only [List.length_take, List.length_drop, List.length_set, List.length_append,
      List.length_cons, List.length_nil]
    omega
  · intro n h1' h2'
    simp only [List.length_take, List.length_drop, List.length_set, List.length_append,
      inf_le_iff] at h1'
    rw [List.getElem_take, List.getElem_set]
    by_cases hn : n < en - st
    · rw [if_neg (by omega)]
      rw [List.getElem_append]
      rw [dif_pos (by simp only [List.length_take, List.length_drop]; omega)]
      rw [List.getElem_take, List.getElem_take, List.getElem_drop]
      rw [List.getElem_append]
      rw [dif_pos (by simp only [List.length_take, List.length_drop]; omega)]
      rw [List.getElem_take, List.getElem_drop]
    · rw [if_pos (by omega)]
      rw [List.getElem_append]
      rw [dif_neg (by simp only [List.length_take, List.length_drop,
        List.length_append, List.length_cons, List.length_nil]; omega)]
      simp

def circularWindow.WF (w B : ℕ) (c : circularWindow) (vs : List ℚ) : Prop :=
  c.winSize = w ∧ c.buffer.length = B ∧ c.startIndex ≤ c.endIndex ∧
  c.endIndex ≤ B ∧ c.endIndex - c.startIndex = min vs.length w ∧
  c.Get = vs.drop (vs.length - w)

lemma wf_push (w B : ℕ) (hw : 1 ≤ w) (hwB : w ≤ B)
    (c : circularWindow) (vs : List ℚ) (v : ℚ)
    (h : circularWindow.WF w B c vs) :
    circularWindow.WF w B (c.Push v) (vs ++ [v]) := by
  obtain ⟨hws, hbl, hse, heB, hlen, hget⟩ := h
  have hlapp : (vs ++ [v]).length = vs.length + 1 := by
    simp only [List.length_append, List.length_cons, List.length_nil]
  rw [show c.Get = (c.buffer.drop c.startIndex).take
    (c.endIndex - c.startIndex) from rfl] at hget
  unfold circularWindow.Push
  by_cases hcap : c.endIndex < c.buffer.length
  · rw [if_pos hcap]
    by_cases hfull : c.winSize = c.endIndex - c.startIndex
    · rw [if_pos hfull]
      have hwlen : w ≤ vs.length := by omega
      have hstlt : c.startIndex < c.endIndex := by omega
      refine ⟨hws, ?_, ?_, ?_, ?_, ?_⟩
      · show (c.buffer.set c.endIndex v).length = B
        simp only [List.length_set]
        exact hbl
      · show c.startIndex + 1 ≤ c.endIndex + 1
        omega
      · show c.endIndex + 1 ≤ B
        omega
      · show c.endIndex + 1 - (c.startIndex + 1) = min (vs ++ [v]).length w
        rw [hlapp]
        omega
      · show ((c.buffer.set c.endIndex v).drop (c.startIndex + 1)).take
            (c.endIndex + 1 - (c.startIndex + 1)) = _
        have he : c.endIndex + 1 - (c.startIndex + 1) = c.endIndex - c.startIndex := by
          omega
        rw [he, winE2 c.buffer c.startIndex c.endIndex v hstlt hcap]
        rw [hget, List.drop_drop]
        rw [List.drop_append_of_le_length (by omega)]
        congr 2
        omega
    · rw [if_neg hfull]
      have hvlt : vs.length < w := by omega
      have hz1 : vs.length - w = 0 := by omega
      have hz2 : (vs ++ [v]).length - w = 0 := by omega
      refine ⟨hws, ?_, ?_, ?_, ?_, ?_⟩
      · show (c.buffer.set c.endIndex v).length = B
        simp only [List.length_set]
        exact hbl
      · show c.startIndex ≤ c.endIndex + 1
        omega
      · show c.endIndex + 1 ≤ B
        omega
      · show c.endIndex + 1 - c.startIndex = min (vs ++ [v]).length w
        rw [hlapp]
        omega
      · show ((c.buffer.set c.endIndex v).drop c.startIndex).take
            (c.endIndex + 1 - c.startIndex) = _
        rw [winE1 c.buffer c.startIndex c.endIndex v hse hcap]
        rw [hget, hz1, List.drop_zero, hz2, List.drop_zero]
  · rw [if_neg hcap]
    have hBeq : c.endIndex = c.buffer.length := by omega
    by_cases hfull : c.winSize = c.endIndex - c.startIndex
    · rw [if_pos hfull]
      have hwlen : w ≤ vs.length := by omega
      have hstlt : c.startIndex < c.endIndex := by omega
      refine ⟨hws, ?_, ?_, ?_, ?_, ?_⟩
      · show ((listCopy c.buffer ((c.buffer.drop (c.startIndex + 1)).take
            (c.endIndex - (c.startIndex + 1)))).set (c.winSize - 1) v).length = B
        simp only [List.length_set, listCopy_length]
        exact hbl
      · show (0 : ℕ) ≤ c.winSize
        omega
      · show c.winSize ≤ B
        omega
      · show c.winSize - 0 = min (vs ++ [v]).length w
        rw [hlapp]
        omega
      · show (((listCopy c.buffer ((c.buffer.drop (c.startIndex + 1)).take
            (c.endIndex - (c.startIndex + 1)))).set (c.winSize - 1) v).drop 0).take
            (c.winSize - 0) = _
        rw [List.drop_zero]
        rw [show c.winSize - 0 = c.endIndex - c.startIndex from by omega]
        rw [show c.winSize - 1 = c.endIndex - c.startIndex - 1 from by omega]
        rw [winE3 c.buffer c.startIndex c.endIndex v hstlt hBeq]
        rw [hget, List.drop_drop]
        rw [List.drop_append_of_le_length (by omega)]
        congr 2
        omega
    · rw [if_neg hfull]
      have hvlt : vs.length < w := by omega
      have hlt2 : c.endIndex - c.startIndex < c.endIndex := by omega
      have hz1 : vs.length - w = 0 := by omega
      have hz2 : (vs ++ [v]).length - w = 0 := by omega
      refine ⟨hws, ?_, ?_, ?_, ?_, ?_⟩
      · show ((listCopy c.buffer ((c.buffer.drop c.startIndex).take
            (c.endIndex - c.startIndex))).set (c.endIndex - c.startIndex) v).length = B
        simp only [List.length_set, listCopy_length]
        exact hbl
      · show (0 : ℕ) ≤ c.endIndex - c.startIndex + 1
        omega
      · show c.endIndex - c.startIndex + 1 ≤ B
        omega
      · show c.endIndex - c.startIndex + 1 - 0 = min (vs ++ [v]).length w
        rw [hlapp]
        omega
      · show (((listCopy c.buffer ((c.buffer.drop c.startIndex).take
            (c.endIndex - c.startIndex))).set (c.endIndex - c.startIndex) v).drop 0).take
            (c.endIndex - c.startIndex + 1 - 0) = _
        rw [List.drop_zero]
        rw [show c.endIndex - c.startIndex + 1 - 0
          = c.endIndex - c.startIndex + 1 from rfl]
        rw [winE4 c.buffer c.startIndex c.endIndex v hse hlt2 hBeq]
        rw [hget, hz1, List.drop_zero, hz2, List.drop_zero]

lemma wf_pushList (w B : ℕ) (hw : 1 ≤ w) (hwB : w ≤ B) :
    ∀ (vs : List ℚ) (c : circularWindow) (vs0 : List ℚ),
      circularWindow.WF w B c vs0 →
      circularWindow.WF w B (vs.foldl circularWindow.Push c) (vs0 ++ vs) := by
  intro vs
  induction vs with
  | nil =>
    intro c vs0 h
    simpa using h
  | cons a t ih =>
    intro c vs0 h
    have h2 := wf_push w B hw hwB c vs0 a h
    have h3 := ih (c.Push a) (vs0 ++ [a]) h2
    simpa using h3

lemma wf_reset (w B : ℕ) (buf0 : List ℚ) (hbuf : buf0.length = B)
    (st0 en0 : ℕ) :
    circularWindow.WF w B (circularWindow.Reset ⟨w, buf0, st0, en0⟩) [] := by
  unfold circularWindow.Reset
  refine ⟨rfl, hbuf, ?_, ?_, ?_, ?_⟩
  · show (0 : ℕ) ≤ 0
    omega
  · show (0 : ℕ) ≤ B
    omega
  · show 0 - 0 = min ([] : List ℚ).length w
    simp
  · show (buf0.drop 0).take (0 - 0) = ([] : List ℚ).drop (([] : List ℚ).length - w)
    simp


/-! ### Speed shifter (speed_shifter.go) -/

structure SpeedShifter where
  source : MemStream
  speed : ℚ
  windowSize : ℕ
  interpolator : List ℚ → ℚ → ℚ
  fracPos : ℚ
  leftoverBytes : ℕ
  lookaheadBytes : ℕ
  leftWindow : circularWindow
  rightWindow : circularWindow
  auxReadBuffer : List ℕ

/-- `SpeedShifter.internalReset`: zeroes the leftover and lookahead byte
counters, clears both windows, pushes `windowSize/2 - 1` zero samples into
each, then reads one 4-byte sample from the source and pushes it (or zero
when fewer than 4 bytes were read). It does not touch `fracPos`. -/
def SpeedShifter.internalReset (self : SpeedShifter) : SpeedShifter :=
  let zeros : List ℚ := List.replicate (self.windowSize / 2 - 1) 0
  let lw := zeros.foldl circularWindow.Push self.leftWindow.Reset
  let rw := zeros.foldl circularWindow.Push self.rightWindow.Reset
  match memRead self.source 4 with
  | (bs, src2, _) =>
    if bs.length = 4 then
      let p := GetSampleAsF64 bs
      { self with
        source := src2
        leftoverBytes := 0
        lookaheadBytes := 0
        leftWindow := lw.Push p.1
        rightWindow := rw.Push p.2 }
    else
      { self with
        source := src2
        leftoverBytes := 0
        lookaheadBytes := 0
        leftWindow := lw.Push 0
        rightWindow := rw.Push 0 }

/-- `NewSpeedShifter`: validates the window size (at least 2 and even,
panic otherwise), allocates the two windows over a shared backing buffer of
`windowSize*8` elements each, and performs the initial reset. All other
fields start at Go zero values. -/
def NewSpeedShifter (source : MemStream) (speed : ℚ) (windowSize : ℕ)
    (interpolator : List ℚ → ℚ → ℚ) : Option SpeedShifter :=
  if windowSize < 2 then none
  else if windowSize % 2 ≠ 0 then none
  else some (SpeedShifter.internalReset {
    source := source
    speed := speed
    windowSize := windowSize
    interpolator := interpolator
    fracPos := 0
    leftoverBytes := 0
    lookaheadBytes := 0
    leftWindow := ⟨windowSize, List.replicate (windowSize * 8) 0, 0, 0⟩
    rightWindow := ⟨windowSize, List.replicate (windowSize * 8) 0, 0, 0⟩
    auxReadBuffer := [] })

/-- `SpeedShifter.Seek`: a relative seek with non-zero offset is a panic; a
relative seek with offset 0 returns (0, nil) at once; absolute seeks
delegate to the source and then reset the interpolation state. -/
def SpeedShifter.Seek (self : SpeedShifter) (offset : ℤ) (whence : Whence) :
    ℤ × SpeedShifter × Option Err :=
  if whence = Whence.seekCurrent then
    if offset = 0 then (0, self, none)
    else (0, self, some Err.panicked)
  else
    match memSeek self.source offset whence with
    | (position, src2, err) =>
      (position, SpeedShifter.internalReset { self with source := src2 }, err)

/-- The lookahead priming loop of `singleRead`: pulls samples into the
windows until `lookaheadBytes` reaches `windowSize*2` bytes or fewer than
4 bytes remain. -/
def primeLookahead (ws2 lookahead : ℕ) (rb : List ℕ)
    (lw rw : circularWindow) : ℕ × List ℕ × circularWindow × circularWindow :=
  if h : lookahead < ws2 then
    if rb.length < 4 then (lookahead, rb, lw, rw)
    else
      let p := GetSampleAsI16 rb
      primeLookahead ws2 (lookahead + 4) (rb.drop 4)
        (lw.Push (p.1 : ℚ)) (rw.Push (p.2 : ℚ))
  else (lookahead, rb, lw, rw)
termination_by ws2 - lookahead
decreasing_by omega

/-- The sample-advance loop of `singleRead`: while `fracPos ≥ 1` and at
least one full sample remains, pushes the next input sample into the
windows and decrements `fracPos`. -/
def advanceLoop (fracPos : ℚ) (rb : List ℕ) (lw rw : circularWindow) :
    ℚ × List ℕ × circularWindow × circularWindow :=
  if h : 1 ≤ fracPos ∧ 4 ≤ rb.length then
    let p := GetSampleAsI16 rb
    advanceLoop (fracPos - 1) (rb.drop 4) (lw.Push (p.1 : ℚ)) (rw.Push (p.2 : ℚ))
  else (fracPos, rb, lw, rw)
termination_by rb.length
decreasing_by simp only [List.length_drop]; omega

/-- The emit/advance loop of `singleRead`: while at least one full input
sample remains and the destination is not full, emits one interpolated
sample when `fracPos < 1` and then advances the input position. -/
def processLoop (fuel : ℕ) (interp : List ℚ → ℚ → ℚ) (speed interpPosBase : ℚ)
    (bufLen : ℕ) (fracPos : ℚ) (rb : List ℕ) (lw rw : circularWindow)
    (out : List ℕ) : List ℕ × ℚ × List ℕ × circularWindow × circularWindow :=
  match fuel with
  | 0 => (out, fracPos, rb, lw, rw)
  | fuel + 1 =>
    if 4 ≤ rb.length ∧ out.length < bufLen then
      match (if fracPos < 1 then
              (out ++ StoreF64SampleAsL16 (interp lw.Get (interpPosBase + fracPos))
                (interp rw.Get (interpPosBase + fracPos)), fracPos + speed)
             else (out, fracPos)) with
      | (out2, frac2) =>
        match advanceLoop frac2 rb lw rw with
        | (frac3, rb3, lw3, rw3) =>
          processLoop fuel interp speed interpPosBase bufLen frac3 rb3 lw3 rw3 out2
    else (out, fracPos, rb, lw, rw)

/-- `SpeedShifter.singleRead`: one pass of the resampler. Computes the
number of source bytes needed for a `bufLen`-byte request, prepends the
leftover bytes of the previous pass, issues one source read, primes the
lookahead if needed, then runs the emit/advance loop; trailing unconsumed
bytes are kept as the new leftover. `panicked` models the defensive panics. -/
def SpeedShifter.singleRead (fuel : ℕ) (self : SpeedShifter) (bufLen : ℕ) :
    List ℕ × SpeedShifter × Option Err :=
  if bufLen = 0 then ([], self, none)
  else
    let requiredLookahead : ℤ := (self.windowSize : ℤ) * 2
    let pendingLookahead : ℤ := requiredLookahead - (self.lookaheadBytes : ℤ)
    let readCompensation : ℤ := pendingLookahead - (self.leftoverBytes : ℤ)
    let bytesToRead : ℤ :=
      Int.ceil ((bufLen : ℚ) * self.speed / 4) * 4 + readCompensation
    if bytesToRead ≤ 0 then ([], self, some Err.panicked)
    else if self.auxReadBuffer.length < self.leftoverBytes then
      ([], self, some Err.panicked)
    else
      let leftover := self.auxReadBuffer.drop
        (self.auxReadBuffer.length - self.leftoverBytes)
      match memRead self.source bytesToRead.toNat with
      | (srcBytes, src2, err) =>
        let readBuffer := leftover ++ srcBytes
        let self2 := { self with source := src2, auxReadBuffer := readBuffer }
        match primeLookahead (self.windowSize * 2) self.lookaheadBytes readBuffer
            self.leftWindow self.rightWindow with
        | (la2, rb2, lw2, rw2) =>
          if la2 < self.windowSize * 2 then
            ([], { self2 with
                    lookaheadBytes := la2
                    leftoverBytes := rb2.length
                    leftWindow := lw2
                    rightWindow := rw2 }, err)
          else
            let interpPosBase : ℚ := (((self.windowSize : ℤ) / 2 - 1 : ℤ) : ℚ)
            match processLoop fuel self.interpolator self.speed interpPosBase
                bufLen self.fracPos rb2 lw2 rw2 [] with
            | (out, frac2, rb3, lw3, rw3) =>
              (out, { self2 with
                       lookaheadBytes := la2
                       fracPos := frac2
                       leftoverBytes := rb3.length
                       leftWindow := lw3
                       rightWindow := rw3 }, err)

/-- The retry loop of `SpeedShifter.Read`. -/
def shifterReadLoop (fuel : ℕ) (self : SpeedShifter) (bufLen : ℕ)
    (served : List ℕ) : List ℕ × SpeedShifter × Option Err :=
  match fuel with
  | 0 => (served, self, some Err.fuelOut)
  | fuel + 1 =>
    if served.length < bufLen then
      match self.singleRead fuel (bufLen - served.length) with
      | (out, self2, err) =>
        if err ≠ none then (served ++ out, self2, err)
        else shifterReadLoop fuel self2 bufLen (served ++ out)
    else (served, self, none)

/-- `SpeedShifter.Read`: truncates the request down to a multiple of 4
bytes and then keeps calling `singleRead` until the request is filled or an
error occurs. -/
def SpeedShifter.Read (fuel : ℕ) (self : SpeedShifter) (bufLen0 : ℕ) :
    List ℕ × SpeedShifter × Option Err :=
  let bufLen := bufLen0 - bufLen0 % 4
  shifterReadLoop fuel self bufLen []

/-! ### Helper lemmas for the speed shifter claims -/


lemma wf_reset2 (w B : ℕ) (c : circularWindow) (hws : c.winSize = w)
    (hbuf : c.buffer.length = B) : circularWindow.WF w B c.Reset [] := by
  cases c with
  | mk ws buf st en =>
    cases hws
    exact wf_reset ws B buf hbuf st en

/-- The contents of a window after reset, priming with zeros and one
pushed value. -/
lemma reset_prime_get (w B k : ℕ) (hw : 1 ≤ w) (hwB : w ≤ B) (hk : k + 1 ≤ w)
    (c : circularWindow) (hws : c.winSize = w) (hbuf : c.buffer.length = B)
    (v : ℚ) :
    (((List.replicate k (0 : ℚ)).foldl circularWindow.Push c.Reset).Push v).Get
      = List.replicate k (0 : ℚ) ++ [v] := by
  have h0 := wf_reset2 w B c hws hbuf
  have h1 := wf_pushList w B hw hwB (List.replicate k (0 : ℚ)) c.Reset [] h0
  simp only [List.nil_append] at h1
  have h2 := wf_push w B hw hwB _ (List.replicate k (0 : ℚ)) v h1
  have h3 := h2.2.2.2.2.2
  rw [h3]
  have hlen : (List.replicate k (0 : ℚ) ++ [v]).length = k + 1 := by
    simp
  rw [hlen]
  rw [show k + 1 - w = 0 from by omega, List.drop_zero]



lemma storeF64_length (l r : ℚ) : (StoreF64SampleAsL16 l r).length = 4 := rfl

lemma processLoop_dvd (interp : List ℚ → ℚ → ℚ) (speed base : ℚ) (bufLen : ℕ) :
    ∀ (fuel : ℕ) (fracPos : ℚ) (rb : List ℕ) (lw rw : circularWindow)
      (out : List ℕ), 4 ∣ out.length →
      4 ∣ (processLoop fuel interp speed base bufLen fracPos rb lw rw out).1.length := by
  intro fuel
  induction fuel with
  | zero =>
    intro fracPos rb lw rw out h
    simpa [processLoop] using h
  | succ fuel ih =>
    intro fracPos rb lw rw out h
    unfold processLoop
    by_cases hc : 4 ≤ rb.length ∧ out.length < bufLen
    · rw [if_pos hc]
      by_cases hf : fracPos < 1
      · rw [if_pos hf]
        dsimp only []
        rcases hav : advanceLoop (fracPos + speed) rb lw rw with ⟨f3, rb3, lw3, rw3⟩
        dsimp only []
        exact ih f3 rb3 lw3 rw3 _
          (by simp only [List.length_append, storeF64_length]; omega)
      · rw [if_neg hf]
        dsimp only []
        rcases hav : advanceLoop fracPos rb lw rw with ⟨f3, rb3, lw3, rw3⟩
        dsimp only []
        exact ih f3 rb3 lw3 rw3 out h
    · rw [if_neg hc]
      simpa using h

lemma singleRead_dvd (fuel : ℕ) (self : SpeedShifter) (bufLen : ℕ) :
    4 ∣ (self.singleRead fuel bufLen).1.length := by
  unfold SpeedShifter.singleRead
  by_cases h0 : bufLen = 0
  · rw [if_pos h0]
    simp
  · rw [if_neg h0]
    by_cases h1 : Int.ceil ((bufLen : ℚ) * self.speed / 4) * 4 +
        (((self.windowSize : ℤ) * 2 - (self.lookaheadBytes : ℤ)) -
          (self.leftoverBytes : ℤ)) ≤ 0
    · rw [if_pos h1]
      simp
    · rw [if_neg h1]
      by_cases h2 : self.auxReadBuffer.length < self.leftoverBytes
      · rw [if_pos h2]
        simp
      · rw [if_neg h2]
        rcases hmr : memRead self.source (Int.ceil ((bufLen : ℚ) * self.speed / 4) * 4 +
            (((self.windowSize : ℤ) * 2 - (self.lookaheadBytes : ℤ)) -
              (self.leftoverBytes : ℤ))).toNat with ⟨srcBytes, src2, err⟩
        dsimp only []
        rcases hpl : primeLookahead (self.windowSize * 2) self.lookaheadBytes
            (self.auxReadBuffer.drop (self.auxReadBuffer.length - self.leftoverBytes)
              ++ srcBytes) self.leftWindow self.rightWindow with ⟨la2, rb2, lw2, rw2⟩
        dsimp only []
        by_cases h3 : la2 < self.windowSize * 2
        · rw [if_pos h3]
          simp
        · rw [if_neg h3]
          rcases hproc : processLoop fuel self.interpolator self.speed
              (((self.windowSize : ℤ) / 2 - 1 : ℤ) : ℚ) bufLen self.fracPos rb2 lw2 rw2 []
            with ⟨out, frac2, rb3, lw3, rw3⟩
          dsimp only []
          have := processLoop_dvd self.interpolator self.speed
            (((self.windowSize : ℤ) / 2 - 1 : ℤ) : ℚ) bufLen fuel self.fracPos rb2 lw2 rw2 []
            (by simp)
          rw [hproc] at this
          simpa using this

lemma shifterReadLoop_dvd :
    ∀ (fuel : ℕ) (self : SpeedShifter) (bufLen : ℕ) (served : List ℕ),
      4 ∣ served.length →
      4 ∣ (shifterReadLoop fuel self bufLen served).1.length := by
  intro fuel
  induction fuel with
  | zero =>
    intro self bufLen served h
    simpa [shifterReadLoop] using h
  | succ fuel ih =>
    intro self bufLen served h
    unfold shifterReadLoop
    by_cases hc : served.length < bufLen
    · rw [if_pos hc]
      rcases hsr : self.singleRead fuel (bufLen - served.length) with ⟨out, self2, err⟩
      dsimp only []
      have hd : 4 ∣ out.length := by
        have := singleRead_dvd fuel self (bufLen - served.length)
        rw [hsr] at this
        simpa using this
      by_cases he : err ≠ none
      · rw [if_pos he]
        simp only [List.length_append]
        omega
      · rw [if_neg he]
        exact ih self2 bufLen (served ++ out)
          (by simp only [List.length_append]; omega)
    · rw [if_neg hc]
      simpa using h


end Edau

/-! ### Theorems for claims C7 and C8 -/

set_option maxRecDepth 8000

/-- C7: for every pair of int16 values (l, r), decoding the 4 bytes produced
by the little-endian encoder gives back exactly (l, r):
`GetSampleAsI16 (StoreL16Sample l r) = (l, r)`. -/
theorem spec_C7_codec_roundtrip (l r : ℤ)
    (hl1 : -32768 ≤ l) (hl2 : l ≤ 32767)
    (hr1 : -32768 ≤ r) (hr2 : r ≤ 32767) :
    Edau.GetSampleAsI16 (Edau.StoreL16Sample l r) = (l, r) := by
  unfold Edau.GetSampleAsI16 Edau.StoreL16Sample Edau.toInt16
  simp only [List.getD_cons_zero, List.getD_cons_succ, Prod.mk.injEq]
  refine ⟨?_, ?_⟩ <;> omega

/-- C7 witness at a concrete input. -/
theorem spec_C7_codec_roundtrip_witness :
    Edau.GetSampleAsI16 (Edau.StoreL16Sample (-12345) 17000) = (-12345, 17000) :=
  spec_C7_codec_roundtrip (-12345) 17000 (by norm_num) (by norm_num)
    (by norm_num) (by norm_num)

/-- C8: float-to-int16 encoding clips and truncates as specified: a raw
value ≥ 32767 encodes to 32767 and ≤ -32768 to -32768, otherwise it is
truncated toward zero; a normalized value ≥ 1.0 encodes to 32767 and
≤ -1.0 to -32768, otherwise it is scaled by 32767 (non-negative) or
32768 (negative) and then truncated toward zero. -/
theorem spec_C8_float_encoding (v : ℚ) :
    (32767 ≤ v → Edau.clipFloatToI16 v = 32767) ∧
    (v ≤ -32768 → Edau.clipFloatToI16 v = -32768) ∧
    (-32768 < v → v < 32767 → Edau.clipFloatToI16 v = Edau.truncF64 v) ∧
    (1 ≤ v → Edau.normFloatToI16 v = 32767) ∧
    (v ≤ -1 → Edau.normFloatToI16 v = -32768) ∧
    (0 ≤ v → v < 1 → Edau.normFloatToI16 v = Edau.truncF64 (v * 32767)) ∧
    (-1 < v → v < 0 → Edau.normFloatToI16 v = Edau.truncF64 (v * 32768)) := by
  unfold Edau.clipFloatToI16 Edau.normFloatToI16
  refine ⟨?_, ?_, ?_, ?_, ?_, ?_, ?_⟩
  · intro h
    rw [if_pos h]
  · intro h
    rw [if_neg (by linarith), if_pos h]
  · intro h1 h2
    rw [if_neg (by linarith), if_neg (by linarith)]
  · intro h
    rw [if_pos (by linarith), if_pos h]
  · intro h
    rw [if_neg (by push_neg; linarith), if_pos h]
  · intro h1 h2
    rw [if_pos h1, if_neg (by push_neg; linarith)]
  · intro h1 h2
    rw [if_neg (by push_neg; linarith), if_neg (by push_neg; linarith)]

/-- C8 witness: applies the theorem at concrete inputs for each case. -/
theorem spec_C8_float_encoding_witness :
    Edau.clipFloatToI16 40000 = 32767 ∧
    Edau.clipFloatToI16 (-40000) = -32768 ∧
    Edau.clipFloatToI16 (5/2) = Edau.truncF64 (5/2) ∧
    Edau.normFloatToI16 2 = 32767 ∧
    Edau.normFloatToI16 (-2) = -32768 ∧
    Edau.normFloatToI16 (1/2) = Edau.truncF64 ((1/2) * 32767) ∧
    Edau.normFloatToI16 (-1/2) = Edau.truncF64 ((-1/2) * 32768) :=
  ⟨(spec_C8_float_encoding 40000).1 (by norm_num),
   (spec_C8_float_encoding (-40000)).2.1 (by norm_num),
   (spec_C8_float_encoding (5/2)).2.2.1 (by norm_num) (by norm_num),
   (spec_C8_float_encoding 2).2.2.2.1 (by norm_num),
   (spec_C8_float_encoding (-2)).2.2.2.2.1 (by norm_num),
   (spec_C8_float_encoding (1/2)).2.2.2.2.2.1 (by norm_num) (by norm_num),
   (spec_C8_float_encoding (-1/2)).2.2.2.2.2.2 (by norm_num) (by norm_num)⟩

/-! ### Theorems for claim C9 -/

/-- C9 counterexample: the 4-point Hermite kernel is not exact at the
integer position 0, a valid position for a window of size 4: on the
window [1, 0, 0, 0] it returns 2 while window[0] = 1. -/
theorem spec_C9_counterexample :
    Edau.InterpHermite4Pt3Ord [1, 0, 0, 0] 0 = 2 ∧
    ([1, 0, 0, 0] : List ℚ).getD 0 0 = 1 ∧ (2 : ℚ) ≠ 1 := by
  refine ⟨?_, by norm_num, by norm_num⟩
  simp only [Edau.InterpHermite4Pt3Ord, List.getD_cons_zero, List.getD_cons_succ]
  norm_num

/-- C9 amended: the Lagrange kernels (general-N, 4-point and 6-point) are
exact at every integer node of their window; the Hermite kernels are exact
only at the two central nodes: positions 1 and 2 for the 4-point kernel and
positions 2 and 3 for the 6-point kernel. -/
theorem spec_C9_interpolator_exactness :
    (∀ (samples : List ℚ) (j : ℕ) (h : j < samples.length),
      Edau.InterpLagrangeN samples (j : ℚ) = samples.get ⟨j, h⟩) ∧
    (∀ s0 s1 s2 s3 : ℚ,
      Edau.InterpLagrange4Pt3Ord [s0, s1, s2, s3] 0 = s0 ∧
      Edau.InterpLagrange4Pt3Ord [s0, s1, s2, s3] 1 = s1 ∧
      Edau.InterpLagrange4Pt3Ord [s0, s1, s2, s3] 2 = s2 ∧
      Edau.InterpLagrange4Pt3Ord [s0, s1, s2, s3] 3 = s3 ∧
      Edau.InterpHermite4Pt3Ord [s0, s1, s2, s3] 1 = s1 ∧
      Edau.InterpHermite4Pt3Ord [s0, s1, s2, s3] 2 = s2) ∧
    (∀ s0 s1 s2 s3 s4 s5 : ℚ,
      Edau.InterpLagrange6Pt5Ord [s0, s1, s2, s3, s4, s5] 0 = s0 ∧
      Edau.InterpLagrange6Pt5Ord [s0, s1, s2, s3, s4, s5] 1 = s1 ∧
      Edau.InterpLagrange6Pt5Ord [s0, s1, s2, s3, s4, s5] 2 = s2 ∧
      Edau.InterpLagrange6Pt5Ord [s0, s1, s2, s3, s4, s5] 3 = s3 ∧
      Edau.InterpLagrange6Pt5Ord [s0, s1, s2, s3, s4, s5] 4 = s4 ∧
      Edau.InterpLagrange6Pt5Ord [s0, s1, s2, s3, s4, s5] 5 = s5 ∧
      Edau.InterpHermite6Pt3Ord [s0, s1, s2, s3, s4, s5] 2 = s2 ∧
      Edau.InterpHermite6Pt3Ord [s0, s1, s2, s3, s4, s5] 3 = s3) := by
  refine ⟨Edau.lagrangeN_exact, ?_, ?_⟩
  · intro s0 s1 s2 s3
    refine ⟨?_, ?_, ?_, ?_, ?_, ?_⟩ <;>
      (simp only [Edau.InterpLagrange4Pt3Ord, Edau.InterpHermite4Pt3Ord,
        List.getD_cons_zero, List.getD_cons_succ]; ring)
  · intro s0 s1 s2 s3 s4 s5
    refine ⟨?_, ?_, ?_, ?_, ?_, ?_, ?_, ?_⟩ <;>
      (simp only [Edau.InterpLagrange6Pt5Ord, Edau.InterpHermite6Pt3Ord,
        List.getD_cons_zero, List.getD_cons_succ]; ring)

/-- C9 witness: the general Lagrange kernel evaluated at a concrete window
and node, with the bound hypothesis discharged. -/
theorem spec_C9_interpolator_exactness_witness :
    Edau.InterpLagrangeN [5, 7, 9] ((1 : ℕ) : ℚ) = 7 := by
  have h := spec_C9_interpolator_exactness.1 [5, 7, 9] 1 (by norm_num)
  simpa using h

/-! ### Theorems for claims C1 and C4 -/

/-- C1: for every Looper, `AdjustLoop(newStart, newEnd)` with valid
arguments (multiples of 4, 0 ≤ newStart < newEnd) succeeds, sets
`loopStart = newStart` and `loopEnd = newEnd` unconditionally, and updates
`activeLoopEnd` to `newEnd` exactly when `newEnd ≥ position`; when
`newEnd < position` the previous `activeLoopEnd` is kept, so the traversal
in progress still ends at the old active end. -/
theorem spec_C1_adjust_loop (lp : Edau.Looper) (newStart newEnd : ℤ)
    (h1 : newStart % 4 = 0) (h2 : newEnd % 4 = 0)
    (h3 : 0 ≤ newStart) (h4 : newStart < newEnd) :
    lp.AdjustLoop newStart newEnd
      = some { lp with
          loopStart := newStart
          loopEnd := newEnd
          activeLoopEnd :=
            if lp.position ≤ newEnd then newEnd else lp.activeLoopEnd } := by
  unfold Edau.Looper.AdjustLoop
  rw [if_neg (by omega), if_neg (by omega), if_neg (by omega), if_neg (by omega)]

/-- C1 witness: the claim's own example. With position = 10 and
activeLoopEnd = 16, AdjustLoop(0, 8) sets loopStart = 0 and loopEnd = 8
but leaves activeLoopEnd at 16. -/
theorem spec_C1_adjust_loop_witness :
    (Edau.Looper.AdjustLoop ⟨⟨fun _ => 0, 32, 10⟩, 10, 0, 16, 16⟩ 0 8).map
        (fun lp => (lp.loopStart, lp.loopEnd, lp.activeLoopEnd, lp.position))
      = some (0, 8, 16, 10) := by
  rw [spec_C1_adjust_loop ⟨⟨fun _ => 0, 32, 10⟩, 10, 0, 16, 16⟩ 0 8
    (by norm_num) (by norm_num) (by norm_num) (by norm_num)]
  rfl

/-- C4: for a Looper over a 32-byte source with loopStart = 0,
loopEnd = 16, activeLoopEnd = 16, position = 0, a single Read of 20 bytes
returns exactly the source bytes [0..16) followed by [0..4) with no error
and position = 4 afterwards; and a 40-byte request crosses the boundary
twice, returning [0..16) + [0..16) + [0..8) with position = 8. -/
theorem spec_C4_looper_wraparound (src : ℕ → ℕ) :
    Edau.Looper.Read 8 ⟨⟨src, 32, 0⟩, 0, 0, 16, 16⟩ 20
      = ((List.range 16).map src ++ (List.range 4).map src,
         ⟨⟨src, 32, 4⟩, 4, 0, 16, 16⟩, none) ∧
    Edau.Looper.Read 8 ⟨⟨src, 32, 0⟩, 0, 0, 16, 16⟩ 40
      = ((List.range 16).map src ++ ((List.range 16).map src
          ++ (List.range 8).map src),
         ⟨⟨src, 32, 8⟩, 8, 0, 16, 16⟩, none) := by
  exact ⟨rfl, rfl⟩

/-! ### Theorems for claim C6 -/

/-- C6: starting from a reset circularWindow of capacity winSize = w over a
backing buffer of length B ≥ w ≥ 1, after pushing any sequence vs of
values, Get returns the last w pushed values in push order once at least w
values have been pushed, and all pushed values before that — i.e. exactly
`vs.drop (vs.length - w)`. The proof covers both the in-place append path
and the compaction paths of Push. -/
theorem spec_C6_circular_window (w B : ℕ) (hw : 1 ≤ w) (hwB : w ≤ B)
    (buf0 : List ℚ) (hbuf : buf0.length = B) (st0 en0 : ℕ) (vs : List ℚ) :
    (vs.foldl Edau.circularWindow.Push
        (Edau.circularWindow.Reset ⟨w, buf0, st0, en0⟩)).Get
      = vs.drop (vs.length - w) := by
  have h := Edau.wf_pushList w B hw hwB vs
    (Edau.circularWindow.Reset ⟨w, buf0, st0, en0⟩) []
    (Edau.wf_reset w B buf0 hbuf st0 en0)
  simp only [List.nil_append] at h
  exact h.2.2.2.2.2

/-- C6 witness: capacity 2 over a length-3 buffer, five pushes (both the
in-place and the compaction branch fire); Get returns the last two pushes. -/
theorem spec_C6_circular_window_witness :
    (([1, 2, 3, 4, 5] : List ℚ).foldl Edau.circularWindow.Push
      (Edau.circularWindow.Reset ⟨2, [0, 0, 0], 0, 0⟩)).Get = [4, 5] := by
  have h := spec_C6_circular_window 2 3 (by norm_num) (by norm_num) [0, 0, 0]
    (by norm_num) 0 0 [1, 2, 3, 4, 5]
  rw [h]
  rfl

/-! ### Theorems for claims C2, C3 and C5 -/

/-- C2 counterexample: Seek does not clear fracPos. A shifter with
fracPos = 1/2 that performs an absolute Seek (which runs internalReset)
still has fracPos = 1/2 afterwards, not 0 as the claim states. -/
theorem spec_C2_counterexample :
    ((Edau.SpeedShifter.Seek
        ⟨⟨fun _ => 0, 0, 0⟩, 1, 2, fun _ _ => 0, 1/2, 0, 0,
         ⟨2, List.replicate 16 0, 0, 0⟩, ⟨2, List.replicate 16 0, 0, 0⟩, []⟩
        0 Edau.Whence.seekStart).2.1).fracPos = 1/2 ∧
    (1/2 : ℚ) ≠ 0 := by
  refine ⟨rfl, by norm_num⟩

/-- C2 amended: the reset performed by internalReset (run at construction
and on every non-relative Seek) clears both channel windows and re-primes
each with windowSize/2 - 1 zero samples followed by one sample read from
the source (or zero if the source yields fewer than 4 bytes), and zeroes
the leftover-bytes and lookahead counters; fracPos however is NOT reset:
it keeps its previous value, and is zero after construction only because
the field is zero-initialized there. -/
theorem spec_C2_reset_state (self : Edau.SpeedShifter)
    (hw : 1 ≤ self.windowSize)
    (hlw : self.leftWindow.winSize = self.windowSize)
    (hrw : self.rightWindow.winSize = self.windowSize)
    (hlb : self.leftWindow.buffer.length = self.windowSize * 8)
    (hrb : self.rightWindow.buffer.length = self.windowSize * 8) :
    self.internalReset.leftoverBytes = 0 ∧
    self.internalReset.lookaheadBytes = 0 ∧
    self.internalReset.fracPos = self.fracPos ∧
    self.internalReset.source = (Edau.memRead self.source 4).2.1 ∧
    self.internalReset.leftWindow.Get
      = List.replicate (self.windowSize / 2 - 1) (0 : ℚ) ++
        [if (Edau.memRead self.source 4).1.length = 4
         then (Edau.GetSampleAsF64 (Edau.memRead self.source 4).1).1 else 0] ∧
    self.internalReset.rightWindow.Get
      = List.replicate (self.windowSize / 2 - 1) (0 : ℚ) ++
        [if (Edau.memRead self.source 4).1.length = 4
         then (Edau.GetSampleAsF64 (Edau.memRead self.source 4).1).2 else 0] ∧
    (∀ (source : Edau.MemStream) (speed : ℚ) (ws : ℕ)
       (interp : List ℚ → ℚ → ℚ),
       (Edau.NewSpeedShifter source speed ws interp).map
         Edau.SpeedShifter.fracPos = (Edau.NewSpeedShifter source speed ws interp).map
           (fun _ => (0 : ℚ))) := by
  have hk : self.windowSize / 2 - 1 + 1 ≤ self.windowSize := by omega
  have hwB : self.windowSize ≤ self.windowSize * 8 := by omega
  unfold Edau.SpeedShifter.internalReset
  rcases hmr : Edau.memRead self.source 4 with ⟨bs, src2, e⟩
  dsimp only []
  by_cases hb4 : bs.length = 4
  · rw [if_pos hb4]
    refine ⟨rfl, rfl, rfl, rfl, ?_, ?_, ?_⟩
    · rw [if_pos hb4]
      exact Edau.reset_prime_get self.windowSize (self.windowSize * 8)
        (self.windowSize / 2 - 1) hw hwB hk self.leftWindow hlw hlb _
    · rw [if_pos hb4]
      exact Edau.reset_prime_get self.windowSize (self.windowSize * 8)
        (self.windowSize / 2 - 1) hw hwB hk self.rightWindow hrw hrb _
    · intro source speed ws interp
      unfold Edau.NewSpeedShifter
      by_cases hws2 : ws < 2
      · rw [if_pos hws2]
        rfl
      · rw [if_neg hws2]
        by_cases hodd : ws % 2 ≠ 0
        · rw [if_pos hodd]
          rfl
        · rw [if_neg hodd]
          simp only [Option.map_some']
          unfold Edau.SpeedShifter.internalReset
          rcases Edau.memRead source 4 with ⟨bs2, src3, e2⟩
          dsimp only []
          by_cases h4 : bs2.length = 4
          · rw [if_pos h4]
          · rw [if_neg h4]
  · rw [if_neg hb4]
    refine ⟨rfl, rfl, rfl, rfl, ?_, ?_, ?_⟩
    · rw [if_neg hb4]
      exact Edau.reset_prime_get self.windowSize (self.windowSize * 8)
        (self.windowSize / 2 - 1) hw hwB hk self.leftWindow hlw hlb _
    · rw [if_neg hb4]
      exact Edau.reset_prime_get self.windowSize (self.windowSize * 8)
        (self.windowSize / 2 - 1) hw hwB hk self.rightWindow hrw hrb _
    · intro source speed ws interp
      unfold Edau.NewSpeedShifter
      by_cases hws2 : ws < 2
      · rw [if_pos hws2]
        rfl
      · rw [if_neg hws2]
        by_cases hodd : ws % 2 ≠ 0
        · rw [if_pos hodd]
          rfl
        · rw [if_neg hodd]
          simp only [Option.map_some']
          unfold Edau.SpeedShifter.internalReset
          rcases Edau.memRead source 4 with ⟨bs2, src3, e2⟩
          dsimp only []
          by_cases h4 : bs2.length = 4
          · rw [if_pos h4]
          · rw [if_neg h4]

/-- C2 witness: a concrete shifter with fracPos = 3/4, stale counters, and
an exhausted source. After reset the counters are zero, the left window
holds the zero padding plus a zero bootstrap sample, and fracPos is
still 3/4. -/
theorem spec_C2_reset_state_witness :
    ((⟨⟨fun _ => 0, 0, 0⟩, 1, 2, fun _ _ => 0, 3/4, 5, 7,
       ⟨2, List.replicate 16 0, 0, 0⟩, ⟨2, List.replicate 16 0, 0, 0⟩, []⟩ :
       Edau.SpeedShifter).internalReset).leftoverBytes = 0 ∧
    ((⟨⟨fun _ => 0, 0, 0⟩, 1, 2, fun _ _ => 0, 3/4, 5, 7,
       ⟨2, List.replicate 16 0, 0, 0⟩, ⟨2, List.replicate 16 0, 0, 0⟩, []⟩ :
       Edau.SpeedShifter).internalReset).fracPos = 3/4 ∧
    ((⟨⟨fun _ => 0, 0, 0⟩, 1, 2, fun _ _ => 0, 3/4, 5, 7,
       ⟨2, List.replicate 16 0, 0, 0⟩, ⟨2, List.replicate 16 0, 0, 0⟩, []⟩ :
       Edau.SpeedShifter).internalReset).leftWindow.Get = [0] := by
  have h := spec_C2_reset_state
    ⟨⟨fun _ => 0, 0, 0⟩, 1, 2, fun _ _ => 0, 3/4, 5, 7,
     ⟨2, List.replicate 16 0, 0, 0⟩, ⟨2, List.replicate 16 0, 0, 0⟩, []⟩
    (by norm_num) rfl rfl (by simp) (by simp)
  refine ⟨h.1, h.2.2.1, ?_⟩
  rw [h.2.2.2.2.1]
  rfl

/-- C3 counterexample: with the source cursor at byte 8 (the underlying
seek would report position 8), Seek(0, io.SeekCurrent) returns 0 — not the
current playback position — and does not touch the source at all. -/
theorem spec_C3_counterexample :
    (Edau.SpeedShifter.Seek
        ⟨⟨fun _ => 0, 32, 8⟩, 1, 2, fun _ _ => 0, 0, 0, 0,
         ⟨2, List.replicate 16 0, 0, 0⟩, ⟨2, List.replicate 16 0, 0, 0⟩, []⟩
        0 Edau.Whence.seekCurrent)
      = (0, ⟨⟨fun _ => 0, 32, 8⟩, 1, 2, fun _ _ => 0, 0, 0, 0,
         ⟨2, List.replicate 16 0, 0, 0⟩, ⟨2, List.replicate 16 0, 0, 0⟩, []⟩, none) ∧
    (Edau.memSeek ⟨fun _ => 0, 32, 8⟩ 0 Edau.Whence.seekCurrent).1 = 8 ∧
    (0 : ℤ) ≠ 8 := by
  refine ⟨rfl, rfl, by norm_num⟩

/-- C3 amended: Seek(offset, current) with offset ≠ 0 is a fatal
precondition violation; Seek(0, current) immediately returns (0, nil)
without delegating to the source and without resetting; Seek with whence
start or end delegates to the underlying source's seek, returns the
source's result, and resets the interpolation state. -/
theorem spec_C3_seek_contract (self : Edau.SpeedShifter) (offset : ℤ)
    (whence : Edau.Whence) :
    (whence = Edau.Whence.seekCurrent → offset ≠ 0 →
      self.Seek offset whence = (0, self, some Edau.Err.panicked)) ∧
    (whence = Edau.Whence.seekCurrent → offset = 0 →
      self.Seek offset whence = (0, self, none)) ∧
    (whence ≠ Edau.Whence.seekCurrent →
      self.Seek offset whence =
        ((Edau.memSeek self.source offset whence).1,
         Edau.SpeedShifter.internalReset
           { self with source := (Edau.memSeek self.source offset whence).2.1 },
         (Edau.memSeek self.source offset whence).2.2)) := by
  refine ⟨?_, ?_, ?_⟩
  · intro hcur hoff
    unfold Edau.SpeedShifter.Seek
    rw [if_pos hcur, if_neg hoff]
  · intro hcur hoff
    unfold Edau.SpeedShifter.Seek
    rw [if_pos hcur, if_pos hoff]
  · intro hcur
    unfold Edau.SpeedShifter.Seek
    rw [if_neg hcur]

/-- C3 witness: the three seek behaviors at concrete inputs. -/
theorem spec_C3_seek_contract_witness :
    Edau.SpeedShifter.Seek
        ⟨⟨fun _ => 0, 32, 8⟩, 1, 2, fun _ _ => 0, 0, 0, 0,
         ⟨2, List.replicate 16 0, 0, 0⟩, ⟨2, List.replicate 16 0, 0, 0⟩, []⟩
        5 Edau.Whence.seekCurrent
      = (0, ⟨⟨fun _ => 0, 32, 8⟩, 1, 2, fun _ _ => 0, 0, 0, 0,
         ⟨2, List.replicate 16 0, 0, 0⟩, ⟨2, List.replicate 16 0, 0, 0⟩, []⟩,
         some Edau.Err.panicked) ∧
    Edau.SpeedShifter.Seek
        ⟨⟨fun _ => 0, 32, 8⟩, 1, 2, fun _ _ => 0, 0, 0, 0,
         ⟨2, List.replicate 16 0, 0, 0⟩, ⟨2, List.replicate 16 0, 0, 0⟩, []⟩
        0 Edau.Whence.seekCurrent
      = (0, ⟨⟨fun _ => 0, 32, 8⟩, 1, 2, fun _ _ => 0, 0, 0, 0,
         ⟨2, List.replicate 16 0, 0, 0⟩, ⟨2, List.replicate 16 0, 0, 0⟩, []⟩, none) ∧
    (Edau.SpeedShifter.Seek
        ⟨⟨fun _ => 0, 32, 8⟩, 1, 2, fun _ _ => 0, 0, 0, 0,
         ⟨2, List.replicate 16 0, 0, 0⟩, ⟨2, List.replicate 16 0, 0, 0⟩, []⟩
        4 Edau.Whence.seekStart).1 = 4 := by
  refine ⟨?_, ?_, ?_⟩
  · exact (spec_C3_seek_contract _ 5 Edau.Whence.seekCurrent).1 rfl (by norm_num)
  · exact (spec_C3_seek_contract _ 0 Edau.Whence.seekCurrent).2.1 rfl rfl
  · rw [(spec_C3_seek_contract
      ⟨⟨fun _ => 0, 32, 8⟩, 1, 2, fun _ _ => 0, 0, 0, 0,
       ⟨2, List.replicate 16 0, 0, 0⟩, ⟨2, List.replicate 16 0, 0, 0⟩, []⟩
      4 Edau.Whence.seekStart).2.2 (by decide)]
    rfl

/-- C5: for every speed shifter state, destination length, speed value and
source content, both the inner single-pass read and the full Read return a
byte count that is a multiple of 4. -/
theorem spec_C5_read_alignment (fuel : ℕ) (self : Edau.SpeedShifter)
    (bufLen : ℕ) :
    4 ∣ (self.singleRead fuel bufLen).1.length ∧
    4 ∣ (Edau.SpeedShifter.Read fuel self bufLen).1.length := by
  refine ⟨Edau.singleRead_dvd fuel self bufLen, ?_⟩
  unfold Edau.SpeedShifter.Read
  exact Edau.shifterReadLoop_dvd fuel self _ [] (by simp)
